import Mathlib

/-!
Verification of the per-chunk analysis pipeline of the ni-dsa-sync repository
(ChnlExpSync.c, RefClkSync.c).  C doubles are modelled as exact real numbers;
the only non-finite value the analysed code can produce is the quotient of a
division by zero, which is modelled by `Option ℝ` with `none` standing for a
non-finite double.  C `int` variables are modelled by `ℤ`, and the C
double-to-int conversion by truncation toward zero.
-/

namespace NiDsaSync

/-- C conversion of a `double` to an `int`: truncation toward zero. -/
noncomputable def truncD (x : ℝ) : ℤ := if 0 ≤ x then ⌊x⌋ else ⌈x⌉

/-- IEEE double division as performed by the C sources: division by zero
produces a non-finite value (infinity or NaN), modelled as `none`; any other
division is exact real division. -/
noncomputable def divD (a b : ℝ) : Option ℝ := if b = 0 then none else some (a / b)

/-- The libm `atan2(y, x)` function in radians, with its value in `(-π, π]`
and `atan2 0 0 = 0`, which is exactly `Complex.arg` of the point `(x, y)`. -/
noncomputable def atan2D (y x : ℝ) : ℝ := Complex.arg ⟨x, y⟩

/-- The `PI` macro defined (identically) at the top of both C files. -/
noncomputable def cPI : ℝ := 3.14159265

/-- One frequency bin of the two channels' one-sided spectra, holding the
real and imaginary components read from `dsaOutput[i]` and `mioOutput[i]`
after the FFTW transforms. -/
structure Bin where
  dsaRe : ℝ
  dsaIm : ℝ
  mioRe : ℝ
  mioIm : ℝ

/-- Line 347 of ChnlExpSync.c (line 322 of RefClkSync.c):
`dsaMagnitude = sqrt((dsaRealComp*dsaRealComp) + (dsaImagComp*dsaImagComp))`. -/
noncomputable def Bin.dsaMagnitude (b : Bin) : ℝ :=
  Real.sqrt (b.dsaRe * b.dsaRe + b.dsaIm * b.dsaIm)

/-- Line 348 of ChnlExpSync.c (line 323 of RefClkSync.c):
`mioMagnitude = sqrt((mioRealComp*mioRealComp) + (mioImagComp*mioImagComp))`. -/
noncomputable def Bin.mioMagnitude (b : Bin) : ℝ :=
  Real.sqrt (b.mioRe * b.mioRe + b.mioIm * b.mioIm)

/-- The measurement triple written through the three output pointers of
`DFT` (`measuredPhaseSkewDeg`, `measuredPhaseSkewSec`, `measuredFreq`).
`measuredPhaseSkewSec` is an `Option ℝ` because it is the one output that can
receive the non-finite result of a division by zero. -/
structure Meas where
  measuredPhaseSkewDeg : ℝ
  measuredPhaseSkewSec : Option ℝ
  measuredFreq : ℝ

/-- A row of the per-bin CSV report emitted inside the `DFT` loop of either
variant: `(freq, dsaMagnitude, dsaAmplitude, mioMagnitude, mioAmplitude)`. -/
structure BinReport where
  freq : ℝ
  dsaMagnitude : ℝ
  dsaAmplitude : ℝ
  mioMagnitude : ℝ
  mioAmplitude : ℝ

/-- Default `Bin` used only as the out-of-range placeholder of `List.getD`;
every access in the theorems below is in range. -/
def binZero : Bin := ⟨0, 0, 0, 0⟩

/-- Default `BinReport` used only as the out-of-range placeholder of
`List.getD`. -/
def reportZero : BinReport := ⟨0, 0, 0, 0, 0⟩

namespace ChnlExpSync

/-- The scan state of the dominant-bin loop of ChnlExpSync.c lines 327-356:
`int maxMagnitudeIndex = 0; int maxMagnitude = 0;`.  `maxMagnitude` is
declared `int` in the source, hence `ℤ` here. -/
structure SelState where
  maxMagnitudeIndex : ℕ
  maxMagnitude : ℤ
deriving DecidableEq

/-- Body of the dominant-bin loop, lines 351-355 of ChnlExpSync.c:
`if (dsaMagnitude >= maxMagnitude && mioMagnitude >= maxMagnitude)
 { maxMagnitude = dsaMagnitude; maxMagnitudeIndex = i; }`.
The comparison promotes the `int` to `double`; the assignment converts the
`double` magnitude to `int` by truncation. -/
noncomputable def selStep (st : SelState) (i : ℕ) (dsaMagnitude mioMagnitude : ℝ) :
    SelState :=
  if (st.maxMagnitude : ℝ) ≤ dsaMagnitude ∧ (st.maxMagnitude : ℝ) ≤ mioMagnitude then
    ⟨i, truncD dsaMagnitude⟩
  else st

/-- The dominant-bin loop of ChnlExpSync.c running from loop counter `i`
over the remaining bins. -/
noncomputable def selGo : ℕ → SelState → List Bin → SelState
  | _, st, [] => st
  | i, st, b :: rest => selGo (i + 1) (selStep st i b.dsaMagnitude b.mioMagnitude) rest

/-- The complete dominant-bin scan of `DFT` in ChnlExpSync.c
(lines 327-356), over the list of `nc` spectrum bins. -/
noncomputable def selectDominantBin (bins : List Bin) : SelState :=
  selGo 0 ⟨0, 0⟩ bins

/-- Line 400-409 of ChnlExpSync.c, `NormalizePhaseAngleDifference`:
`if (phase > 270) phase = phase - 360; if (phase < -90) phase = phase + 360;`. -/
noncomputable def NormalizePhaseAngleDifference (phase : ℝ) : ℝ :=
  let phase1 := if phase > 270 then phase - 360 else phase
  if phase1 < -90 then phase1 + 360 else phase1

/-- Line 373 of ChnlExpSync.c:
`phaseSkewSec = ((dsaPhase-mioPhase)/360) * (1/maxFreq)`, the factor
`1/maxFreq` evaluated with IEEE semantics (`divD`). -/
noncomputable def phaseSkewSecOf (dsaPhase mioPhase maxFreq : ℝ) : Option ℝ :=
  (divD 1 maxFreq).map (fun r => ((dsaPhase - mioPhase) / 360) * r)

/-- Lines 358-378 of ChnlExpSync.c: the tail of `DFT` after the per-bin
loop.  It reads the spectra at the selected bin, computes
`maxFreq = maxMagnitudeIndex * binPrecision` with
`binPrecision = sampleRate / sampsPerChan`, the two phases
`atan2(imag, real) * (180/PI)`, and writes the three outputs
unconditionally. -/
noncomputable def DFT (sampleRate : ℝ) (n : ℕ) (bins : List Bin) : Meas :=
  let maxMagnitudeIndex := (selectDominantBin bins).maxMagnitudeIndex
  let b := bins.getD maxMagnitudeIndex binZero
  let maxFreq := (maxMagnitudeIndex : ℝ) * (sampleRate / n)
  let dsaPhase := atan2D b.dsaIm b.dsaRe * (180 / cPI)
  let mioPhase := atan2D b.mioIm b.mioRe * (180 / cPI)
  { measuredPhaseSkewDeg := NormalizePhaseAngleDifference (dsaPhase - mioPhase)
    measuredPhaseSkewSec := phaseSkewSecOf dsaPhase mioPhase maxFreq
    measuredFreq := maxFreq }

/-- One row of the per-bin CSV output of ChnlExpSync.c lines 341-345:
`freq = i * binPrecision`, magnitudes as in the source, and
`amplitude = magnitude * 2 / n` for both channels. -/
noncomputable def reportLine (sampleRate : ℝ) (n : ℕ) (i : ℕ) (b : Bin) : BinReport :=
  { freq := (i : ℝ) * (sampleRate / n)
    dsaMagnitude := b.dsaMagnitude
    dsaAmplitude := b.dsaMagnitude * 2 / n
    mioMagnitude := b.mioMagnitude
    mioAmplitude := b.mioMagnitude * 2 / n }

/-- The per-bin report sequence emitted by the `DFT` loop of ChnlExpSync.c
(lines 333-346), one row per bin index `i < nc`. -/
noncomputable def report (sampleRate : ℝ) (n : ℕ) (bins : List Bin) : List BinReport :=
  (List.range bins.length).map (fun i => reportLine sampleRate n i (bins.getD i binZero))

/-- Lines 216-224 of ChnlExpSync.c, the demultiplexing loop of
`EveryNCallback`: `dsaData[i] = totalData[j]; mioData[i] = totalData[j+1];
j = j + 2;` for `i < sampsPerChan`, so channel A takes the even and channel
B the odd positions of the interleaved buffer. -/
def splitInterleaved (total : List ℝ) (n : ℕ) : List ℝ × List ℝ :=
  ((List.range n).map (fun i => total.getD (2 * i) 0),
   (List.range n).map (fun i => total.getD (2 * i + 1) 0))

end ChnlExpSync

/-- Modelled from the spec: re-interleaving two per-channel sequences back
into one scan-major buffer `[a0, b0, a1, b1, …]`, used only to state the
demultiplexer round-trip property of the spec; the repository itself never
re-interleaves. -/
def interleave : List ℝ → List ℝ → List ℝ
  | a :: xs, b :: ys => a :: b :: interleave xs ys
  | _, _ => []

/-- The `int nc = (n/2)+1` computation shared by both `DFT` variants
(ChnlExpSync.c line 299, RefClkSync.c line 284); C `int` division on
nonnegative operands is floor division, as is `Nat` division. -/
def nc (n : ℕ) : ℕ := n / 2 + 1

/-- Modelled from the spec: bin `k` of the one-sided real DFT computed by
the external FFTW call `fftw_plan_dft_r2c_1d` (the FFTW library is not part
of this repository); bin `k` holds `Σ_j x_j · e^{-2πi·k·j/n}`. -/
noncomputable def dftBin (x : List ℝ) (k : ℕ) : ℝ × ℝ :=
  (∑ j ∈ Finset.range x.length,
      x.getD j 0 * Real.cos (2 * Real.pi * (k * j : ℕ) / x.length),
   -∑ j ∈ Finset.range x.length,
      x.getD j 0 * Real.sin (2 * Real.pi * (k * j : ℕ) / x.length))

/-- Modelled from the spec: the one-sided spectrum produced by the external
FFTW real-to-complex transform, one complex bin for each `k < nc n` as
allocated and consumed by both `DFT` variants. -/
noncomputable def oneSidedDFT (x : List ℝ) : List (ℝ × ℝ) :=
  (List.range (nc x.length)).map (dftBin x)

/-- The zipped pair of the two channels' one-sided spectra, in the form
consumed by the per-bin loops of both `DFT` variants, which read
`dsaOutput[i]` and `mioOutput[i]` together at each `i`. -/
noncomputable def spectrumBins (dsa mio : List ℝ) : List Bin :=
  ((oneSidedDFT dsa).zip (oneSidedDFT mio)).map fun p => ⟨p.1.1, p.1.2, p.2.1, p.2.2⟩

namespace RefClkSync

/-- Line 368-377 of RefClkSync.c, `NormalizePhaseAngleDifference`,
textually identical to the copy in ChnlExpSync.c. -/
noncomputable def NormalizePhaseAngleDifference (phase : ℝ) : ℝ :=
  let phase1 := if phase > 270 then phase - 360 else phase
  if phase1 < -90 then phase1 + 360 else phase1

/-- Line 333 of RefClkSync.c:
`phaseSkewSec = ((dsaPhase-mioPhase)/360) * (1/freq)`, the factor `1/freq`
evaluated with IEEE semantics (`divD`). -/
noncomputable def phaseSkewSecOf (dsaPhase mioPhase freq : ℝ) : Option ℝ :=
  (divD 1 freq).map (fun r => ((dsaPhase - mioPhase) / 360) * r)

/-- The per-bin measurement triple of RefClkSync.c lines 325-333 at bin
`i`: `freq = i * (sampleRate/sampsPerChan)`, the two phases
`atan2(imag, real) * (180/PI)`, the normalized skew in degrees and the
skew in seconds. -/
noncomputable def binMeas (sampleRate : ℝ) (n : ℕ) (i : ℕ) (b : Bin) : Meas :=
  let freq := (i : ℝ) * (sampleRate / n)
  let dsaPhase := atan2D b.dsaIm b.dsaRe * (180 / cPI)
  let mioPhase := atan2D b.mioIm b.mioRe * (180 / cPI)
  { measuredPhaseSkewDeg := NormalizePhaseAngleDifference (dsaPhase - mioPhase)
    measuredPhaseSkewSec := phaseSkewSecOf dsaPhase mioPhase freq
    measuredFreq := freq }

/-- The magnitude gate of RefClkSync.c line 336:
`if (dsaMagnitude >= 5 && mioMagnitude >= 5)`. -/
def Qualifies (b : Bin) : Prop := 5 ≤ b.dsaMagnitude ∧ 5 ≤ b.mioMagnitude

/-- One iteration of the `DFT` loop of RefClkSync.c restricted to its
effect on the three output locations (lines 335-341): inside the magnitude
gate all three outputs are overwritten with the bin's triple, otherwise
they are untouched. -/
noncomputable def refStep (sampleRate : ℝ) (n : ℕ) (m : Meas) (i : ℕ) (b : Bin) : Meas :=
  if 5 ≤ b.dsaMagnitude ∧ 5 ≤ b.mioMagnitude then binMeas sampleRate n i b else m

/-- The `DFT` loop of RefClkSync.c running from loop counter `i` over the
remaining bins, carrying the current contents of the three output
locations. -/
noncomputable def refGo (sampleRate : ℝ) (n : ℕ) : ℕ → Meas → List Bin → Meas
  | _, m, [] => m
  | i, m, b :: rest => refGo sampleRate n (i + 1) (refStep sampleRate n m i b) rest

/-- The effect of `DFT` in RefClkSync.c (lines 314-345) on the three
caller-provided output locations, whose initial contents are `m0`
(`EveryNCallback` initializes all three to zero before the call). -/
noncomputable def DFT (sampleRate : ℝ) (n : ℕ) (bins : List Bin) (m0 : Meas) : Meas :=
  refGo sampleRate n 0 m0 bins

/-- One row of the per-bin CSV output of RefClkSync.c lines 324-327 and
343, identical to the ChnlExpSync variant's row. -/
noncomputable def reportLine (sampleRate : ℝ) (n : ℕ) (i : ℕ) (b : Bin) : BinReport :=
  { freq := (i : ℝ) * (sampleRate / n)
    dsaMagnitude := b.dsaMagnitude
    dsaAmplitude := b.dsaMagnitude * 2 / n
    mioMagnitude := b.mioMagnitude
    mioAmplitude := b.mioMagnitude * 2 / n }

/-- The per-bin report sequence emitted by the `DFT` loop of RefClkSync.c,
one row per bin index `i < nc`. -/
noncomputable def report (sampleRate : ℝ) (n : ℕ) (bins : List Bin) : List BinReport :=
  (List.range bins.length).map (fun i => reportLine sampleRate n i (bins.getD i binZero))

end RefClkSync

/-- Modelled from the spec: the post-normalization variant of the
seconds-based skew, `(normalize(d) / 360) * (1 / f)`, which the spec
asserts the single-task variant computes; stated only to compare against
the source's actual formula. -/
noncomputable def specPostNormPhaseSkewSec (dsaPhase mioPhase f : ℝ) : Option ℝ :=
  (divD 1 f).map (fun r =>
    (ChnlExpSync.NormalizePhaseAngleDifference (dsaPhase - mioPhase) / 360) * r)

/-! Helper lemmas. -/

theorem truncD_nonneg_eq_floor {x : ℝ} (h : 0 ≤ x) : truncD x = ⌊x⌋ := by
  rw [truncD, if_pos h]

theorem truncD_zero : truncD 0 = 0 := by
  rw [truncD_nonneg_eq_floor le_rfl, Int.floor_zero]

theorem truncD_le {x : ℝ} (h : 0 ≤ x) : (truncD x : ℝ) ≤ x := by
  rw [truncD_nonneg_eq_floor h]; exact Int.floor_le x

/-- The magnitude of a bin whose two components on a channel are `a` and
`0` is `a`, for `0 ≤ a`. -/
theorem dsaMagnitude_axis (a c : ℝ) (h : 0 ≤ a) :
    Bin.dsaMagnitude ⟨a, 0, c, 0⟩ = a := by
  rw [Bin.dsaMagnitude]
  simpa using Real.sqrt_mul_self h

theorem mioMagnitude_axis (a c : ℝ) (h : 0 ≤ c) :
    Bin.mioMagnitude ⟨a, 0, c, 0⟩ = c := by
  rw [Bin.mioMagnitude]
  simpa using Real.sqrt_mul_self h

theorem dsaMagnitude_binZero : Bin.dsaMagnitude binZero = 0 := by
  simpa using dsaMagnitude_axis 0 0 le_rfl

theorem mioMagnitude_binZero : Bin.mioMagnitude binZero = 0 := by
  simpa using mioMagnitude_axis 0 0 le_rfl

/-- The magnitude of a bin with components `3` and `4` on both channels. -/
theorem dsaMagnitude_345 : Bin.dsaMagnitude ⟨3, 4, 3, 4⟩ = 5 := by
  rw [Bin.dsaMagnitude]
  rw [show (3:ℝ) * 3 + 4 * 4 = 5 * 5 by norm_num]
  exact Real.sqrt_mul_self (by norm_num)

theorem mioMagnitude_345 : Bin.mioMagnitude ⟨3, 4, 3, 4⟩ = 5 := by
  rw [Bin.mioMagnitude]
  rw [show (3:ℝ) * 3 + 4 * 4 = 5 * 5 by norm_num]
  exact Real.sqrt_mul_self (by norm_num)

theorem getD_range_map {α : Type} (f : ℕ → α) (L i : ℕ) (hi : i < L) (d : α) :
    ((List.range L).map f).getD i d = f i := by
  rw [List.getD_eq_getElem?_getD, List.getElem?_map, List.getElem?_range hi]
  rfl

namespace ChnlExpSync

theorem selGo_append (xs ys : List Bin) (i : ℕ) (st : SelState) :
    selGo i st (xs ++ ys) = selGo (i + xs.length) (selGo i st xs) ys := by
  induction xs generalizing i st with
  | nil => simp [selGo]
  | cons b rest ih =>
      rw [List.cons_append, selGo, selGo, ih]
      simp only [List.length_cons]
      ring_nf

/-- Bins at which neither channel reaches the running threshold leave the
scan state untouched. -/
theorem selGo_frame (bins : List Bin) (i : ℕ) (st : SelState)
    (h : ∀ b ∈ bins, ¬ ((st.maxMagnitude : ℝ) ≤ b.dsaMagnitude ∧
      (st.maxMagnitude : ℝ) ≤ b.mioMagnitude)) :
    selGo i st bins = st := by
  induction bins generalizing i with
  | nil => rfl
  | cons b rest ih =>
      rw [selGo, selStep, if_neg (h b (List.mem_cons_self b rest))]
      exact ih (i + 1) fun x hx => h x (List.mem_cons_of_mem _ hx)

/-- On all-zero magnitudes every bin qualifies, so the scan ends at the
last index with threshold `0`. -/
theorem selGo_allzero (bins : List Bin) (i : ℕ) (st : SelState)
    (hst : st.maxMagnitude = 0)
    (h0 : ∀ b ∈ bins, b.dsaMagnitude = 0 ∧ b.mioMagnitude = 0)
    (hne : bins ≠ []) :
    selGo i st bins = ⟨i + bins.length - 1, 0⟩ := by
  induction bins generalizing i st with
  | nil => exact absurd rfl hne
  | cons b rest ih =>
      have hb := h0 b (List.mem_cons_self b rest)
      have hstep : selStep st i b.dsaMagnitude b.mioMagnitude = ⟨i, 0⟩ := by
        rw [selStep, if_pos (by rw [hb.1, hb.2, hst]; norm_num), hb.1, truncD_zero]
      cases rest with
      | nil => simp [selGo, hstep]
      | cons c cs =>
          rw [selGo, hstep,
            ih (i + 1) ⟨i, 0⟩ rfl (fun x hx => h0 x (List.mem_cons_of_mem _ hx)) (by simp)]
          simp
          omega

end ChnlExpSync

namespace RefClkSync

theorem refGo_append (sampleRate : ℝ) (n : ℕ) (xs ys : List Bin) (i : ℕ) (m : Meas) :
    refGo sampleRate n i m (xs ++ ys) =
      refGo sampleRate n (i + xs.length) (refGo sampleRate n i m xs) ys := by
  induction xs generalizing i m with
  | nil => simp [refGo]
  | cons b rest ih =>
      rw [List.cons_append, refGo, refGo, ih]
      simp only [List.length_cons]
      ring_nf

/-- Bins failing the magnitude gate leave the output locations untouched. -/
theorem refGo_frame (sampleRate : ℝ) (n : ℕ) (bins : List Bin) (i : ℕ) (m : Meas)
    (h : ∀ b ∈ bins, ¬ Qualifies b) :
    refGo sampleRate n i m bins = m := by
  induction bins generalizing i with
  | nil => rfl
  | cons b rest ih =>
      rw [refGo, refStep,
        if_neg (show ¬(5 ≤ b.dsaMagnitude ∧ 5 ≤ b.mioMagnitude) from
          h b (List.mem_cons_self b rest))]
      exact ih (i + 1) fun x hx => h x (List.mem_cons_of_mem _ hx)

end RefClkSync

/-- Splitting the interleaved buffer at even/odd positions and
re-interleaving gives back the buffer. -/
theorem interleave_split : ∀ (n : ℕ) (total : List ℝ), total.length = 2 * n →
    interleave ((List.range n).map (fun i => total.getD (2 * i) 0))
      ((List.range n).map (fun i => total.getD (2 * i + 1) 0)) = total := by
  intro n
  induction n with
  | zero =>
      intro total h
      rw [List.length_eq_zero] at h
      simp [h, interleave]
  | succ k ih =>
      intro total h
      match total, h with
      | a :: b :: rest, h =>
          have hrest : rest.length = 2 * k := by
            simp [List.length_cons] at h
            omega
          rw [List.range_succ_eq_map, List.map_cons, List.map_cons,
            List.map_map, List.map_map]
          have e1 : ((fun i => (a :: b :: rest).getD (2 * i) 0) ∘ Nat.succ) =
              fun i => rest.getD (2 * i) 0 := by
            funext i
            show (a :: b :: rest).getD (2 * (i + 1)) 0 = rest.getD (2 * i) 0
            rw [show 2 * (i + 1) = 2 * i + 1 + 1 by ring]
            rw [List.getD_cons_succ, List.getD_cons_succ]
          have e2 : ((fun i => (a :: b :: rest).getD (2 * i + 1) 0) ∘ Nat.succ) =
              fun i => rest.getD (2 * i + 1) 0 := by
            funext i
            show (a :: b :: rest).getD (2 * (i + 1) + 1) 0 = rest.getD (2 * i + 1) 0
            rw [show 2 * (i + 1) + 1 = 2 * i + 1 + 1 + 1 by ring]
            rw [List.getD_cons_succ, List.getD_cons_succ]
          rw [e1, e2]
          show interleave (a :: _) (b :: _) = _
          rw [interleave, ih rest hrest]

/-! Claim theorems. -/

/-- C1 (counterexample): on three all-zero bins the dominant-bin scan of
ChnlExpSync.c selects index 2, not the DC bin 0 claimed by the spec: the
`>=` comparison lets every all-zero bin overwrite the selection. -/
theorem c1_counterexample_allzero_selects_index_two :
    (ChnlExpSync.selectDominantBin [binZero, binZero, binZero]).maxMagnitudeIndex = 2 ∧
    (ChnlExpSync.selectDominantBin [binZero, binZero, binZero]).maxMagnitudeIndex ≠ 0 := by
  have h : ChnlExpSync.selectDominantBin [binZero, binZero, binZero] = ⟨2, 0⟩ := by
    have hz : ∀ b ∈ [binZero, binZero, binZero],
        b.dsaMagnitude = 0 ∧ b.mioMagnitude = 0 := by
      intro b hb
      simp only [List.mem_cons, List.not_mem_nil, or_false] at hb
      rcases hb with h | h | h <;>
        simp [h, dsaMagnitude_binZero, mioMagnitude_binZero]
    simpa using ChnlExpSync.selGo_allzero [binZero, binZero, binZero] 0 ⟨0, 0⟩ rfl hz (by simp)
  rw [h]
  exact ⟨rfl, by norm_num⟩

/-- C1 (amended): for every nonempty list of spectrum bins in which every
bin magnitude of both channels is zero, the dominant-bin scan of
ChnlExpSync.c selects the LAST bin, index `length - 1`, with stored
threshold `0`: each zero bin passes the `>=` test and overwrites the
selection, so the reported frequency is `(length-1) * sampleRate / N`,
not 0. -/
theorem c1_amended_allzero_selects_last_bin (bins : List Bin) (hne : bins ≠ [])
    (h0 : ∀ b ∈ bins, b.dsaMagnitude = 0 ∧ b.mioMagnitude = 0) :
    ChnlExpSync.selectDominantBin bins = ⟨bins.length - 1, 0⟩ := by
  simpa using ChnlExpSync.selGo_allzero bins 0 ⟨0, 0⟩ rfl h0 hne

/-- C1 (witness): the amended claim at the concrete all-zero two-bin
spectra, where the selected index is 1. -/
theorem c1_witness :
    (∀ b ∈ [binZero, binZero], b.dsaMagnitude = 0 ∧ b.mioMagnitude = 0) ∧
    ChnlExpSync.selectDominantBin [binZero, binZero] = ⟨1, 0⟩ := by
  have h0 : ∀ b ∈ [binZero, binZero], b.dsaMagnitude = 0 ∧ b.mioMagnitude = 0 := by
    intro b hb
    simp only [List.mem_cons, List.not_mem_nil, or_false] at hb
    rcases hb with h | h <;>
      simp [h, dsaMagnitude_binZero, mioMagnitude_binZero]
  exact ⟨h0, by
    simpa using c1_amended_allzero_selects_last_bin [binZero, binZero] (by simp) h0⟩

/-- C2 (counterexample): bins 1 and 2 both have magnitude 5 on both
channels (components 3 and 4), the joint maximum; the scan selects index
2, not the lower index 1 claimed by the spec, because the `>=` comparison
lets the second tied bin overwrite the first. -/
theorem c2_counterexample_tie_selects_higher_index :
    (ChnlExpSync.selectDominantBin
      [binZero, ⟨3, 4, 3, 4⟩, ⟨3, 4, 3, 4⟩]).maxMagnitudeIndex = 2 ∧
    (ChnlExpSync.selectDominantBin
      [binZero, ⟨3, 4, 3, 4⟩, ⟨3, 4, 3, 4⟩]).maxMagnitudeIndex ≠ 1 := by
  have h5 : truncD (5 : ℝ) = 5 := by
    rw [truncD_nonneg_eq_floor (by norm_num)]
    norm_num
  have h : ChnlExpSync.selectDominantBin [binZero, ⟨3, 4, 3, 4⟩, ⟨3, 4, 3, 4⟩] = ⟨2, 5⟩ := by
    show ChnlExpSync.selGo 0 ⟨0, 0⟩ _ = _
    rw [ChnlExpSync.selGo, ChnlExpSync.selStep,
      if_pos (by rw [dsaMagnitude_binZero, mioMagnitude_binZero]; norm_num),
      dsaMagnitude_binZero, truncD_zero]
    rw [ChnlExpSync.selGo, ChnlExpSync.selStep,
      if_pos (by rw [dsaMagnitude_345, mioMagnitude_345]; norm_num),
      dsaMagnitude_345, h5]
    rw [ChnlExpSync.selGo, ChnlExpSync.selStep,
      if_pos (by rw [dsaMagnitude_345, mioMagnitude_345]; norm_num),
      dsaMagnitude_345, h5]
    rfl
  rw [h]
  exact ⟨rfl, by norm_num⟩

/-- C2 (amended): when two bins share an equal joint-qualifying maximal
magnitude `m` on both channels, the dominant-bin scan of ChnlExpSync.c
returns the HIGHER of the two indices: the second tied bin passes the
`>=` test against the truncated threshold and overwrites the selection.
Stated for a spectrum `pre ++ b1 :: b2 :: post` where the scan threshold
after `pre` does not exceed `m` and no bin of `post` qualifies against the
truncated threshold `truncD m`. -/
theorem c2_amended_tie_selects_higher_index
    (pre post : List Bin) (b1 b2 : Bin) (m : ℝ)
    (h1a : b1.dsaMagnitude = m) (h1b : b1.mioMagnitude = m)
    (h2a : b2.dsaMagnitude = m) (h2b : b2.mioMagnitude = m)
    (hpre : ((ChnlExpSync.selectDominantBin pre).maxMagnitude : ℝ) ≤ m)
    (hpost : ∀ b ∈ post, b.dsaMagnitude < (truncD m : ℝ) ∨
      b.mioMagnitude < (truncD m : ℝ)) :
    (ChnlExpSync.selectDominantBin
      (pre ++ b1 :: b2 :: post)).maxMagnitudeIndex = pre.length + 1 := by
  have hm : 0 ≤ m := h1a ▸ Real.sqrt_nonneg _
  show (ChnlExpSync.selGo 0 ⟨0, 0⟩ _).maxMagnitudeIndex = _
  rw [ChnlExpSync.selGo_append]
  rw [ChnlExpSync.selGo, ChnlExpSync.selStep, if_pos ⟨h1a ▸ hpre, h1b ▸ hpre⟩, h1a]
  rw [ChnlExpSync.selGo, ChnlExpSync.selStep,
    if_pos ⟨by rw [h2a]; exact truncD_le hm, by rw [h2b]; exact truncD_le hm⟩, h2a]
  have hfr : ∀ b ∈ post,
      ¬ (((truncD m : ℤ) : ℝ) ≤ b.dsaMagnitude ∧
        ((truncD m : ℤ) : ℝ) ≤ b.mioMagnitude) := by
    intro b hb
    rcases hpost b hb with h | h
    · exact fun hc => absurd hc.1 (not_le.2 h)
    · exact fun hc => absurd hc.2 (not_le.2 h)
  rw [ChnlExpSync.selGo_frame _ _ _ hfr]
  simp

/-- C2 (witness): the amended claim at concrete spectra: two bins of joint
magnitude 5 at indices 0 and 1 followed by a zero bin; index 1 is
selected. -/
theorem c2_witness :
    (Bin.dsaMagnitude ⟨3, 4, 3, 4⟩ = 5 ∧ Bin.mioMagnitude ⟨3, 4, 3, 4⟩ = 5) ∧
    (ChnlExpSync.selectDominantBin
      ([] ++ (⟨3, 4, 3, 4⟩ : Bin) :: (⟨3, 4, 3, 4⟩ : Bin) :: [binZero])).maxMagnitudeIndex
      = 1 := by
  have h5 : truncD (5 : ℝ) = 5 := by
    rw [truncD_nonneg_eq_floor (by norm_num)]
    norm_num
  refine ⟨⟨dsaMagnitude_345, mioMagnitude_345⟩, ?_⟩
  have := c2_amended_tie_selects_higher_index [] [binZero] ⟨3, 4, 3, 4⟩ ⟨3, 4, 3, 4⟩ 5
    dsaMagnitude_345 mioMagnitude_345 dsaMagnitude_345 mioMagnitude_345
    (by show ((0 : ℤ) : ℝ) ≤ 5; norm_num)
    (by
      intro b hb
      simp only [List.mem_cons, List.not_mem_nil, or_false] at hb
      rw [hb, dsaMagnitude_binZero, h5]
      norm_num)
  simpa using this

/-- C9: in the dominant-bin scan of ChnlExpSync.c the running threshold
`maxMagnitude` is an `int`: a bin accepted on top of any scanned prefix is
accepted exactly when both its magnitudes reach the TRUNCATED threshold,
and the new threshold stored is the truncation toward zero of the bin's
channel-A magnitude; in particular a final bin whose magnitudes reach the
truncated threshold replaces the selection even when its true magnitude is
strictly below the previously accepted one (by less than 1). -/
theorem c9_int_truncated_threshold (pre : List Bin) (b : Bin)
    (ha : ((ChnlExpSync.selectDominantBin pre).maxMagnitude : ℝ) ≤ b.dsaMagnitude)
    (hb : ((ChnlExpSync.selectDominantBin pre).maxMagnitude : ℝ) ≤ b.mioMagnitude) :
    ChnlExpSync.selectDominantBin (pre ++ [b]) =
      ⟨pre.length, truncD b.dsaMagnitude⟩ := by
  show ChnlExpSync.selGo 0 ⟨0, 0⟩ _ = _
  rw [ChnlExpSync.selGo_append]
  rw [ChnlExpSync.selGo, ChnlExpSync.selStep, if_pos ⟨ha, hb⟩]
  simp [ChnlExpSync.selGo]

/-- C9 (witness): a first bin of magnitude 5.5 sets the threshold to the
truncation 5; the second bin of magnitude 5.2 — strictly smaller than 5.5
— still replaces the selection, which ends at index 1 with threshold 5. -/
theorem c9_witness :
    Bin.dsaMagnitude ⟨5.2, 0, 5.2, 0⟩ < Bin.dsaMagnitude ⟨5.5, 0, 5.5, 0⟩ ∧
    ChnlExpSync.selectDominantBin
      [⟨5.5, 0, 5.5, 0⟩, ⟨5.2, 0, 5.2, 0⟩] = ⟨1, 5⟩ := by
  have m55 : Bin.dsaMagnitude ⟨5.5, 0, 5.5, 0⟩ = 5.5 := dsaMagnitude_axis _ _ (by norm_num)
  have m52 : Bin.dsaMagnitude ⟨5.2, 0, 5.2, 0⟩ = 5.2 := dsaMagnitude_axis _ _ (by norm_num)
  have m55m : Bin.mioMagnitude ⟨5.5, 0, 5.5, 0⟩ = 5.5 := mioMagnitude_axis _ _ (by norm_num)
  have m52m : Bin.mioMagnitude ⟨5.2, 0, 5.2, 0⟩ = 5.2 := mioMagnitude_axis _ _ (by norm_num)
  have hpre : ChnlExpSync.selectDominantBin [⟨5.5, 0, 5.5, 0⟩] = ⟨0, 5⟩ := by
    show ChnlExpSync.selGo 0 ⟨0, 0⟩ _ = _
    rw [ChnlExpSync.selGo, ChnlExpSync.selStep,
      if_pos (by rw [m55, m55m]; norm_num), m55]
    rw [truncD_nonneg_eq_floor (by norm_num)]
    norm_num
    rfl
  refine ⟨by rw [m55, m52]; norm_num, ?_⟩
  have := c9_int_truncated_threshold [⟨5.5, 0, 5.5, 0⟩] ⟨5.2, 0, 5.2, 0⟩
    (by rw [hpre, m52]; norm_num) (by rw [hpre, m52m]; norm_num)
  rw [List.singleton_append] at this
  rw [this, m52]
  have : truncD (5.2 : ℝ) = 5 := by
    rw [truncD_nonneg_eq_floor (by norm_num)]
    norm_num
  rw [this]
  rfl

/-- C3: neither variant guards the DC case.  On spectra whose dominant bin
is bin 0 (here: DC component 10 on both channels, all other bins zero, so
the single-task scan ends at index 0), ChnlExpSync.c reports frequency 0
and computes `phaseSkewSec = ((dsaPhase-mioPhase)/360) * (1/0)`: the
division by zero is performed and its non-finite result (`none`) is
written to `*measuredPhaseSkewSec`; no distinct undefined result is
reported.  RefClkSync.c likewise writes the non-finite quotient at its
qualifying DC bin. -/
theorem c3_dc_division_by_zero_not_guarded :
    (ChnlExpSync.DFT 10000 2 [⟨10, 0, 10, 0⟩, binZero]).measuredFreq = 0 ∧
    (ChnlExpSync.DFT 10000 2 [⟨10, 0, 10, 0⟩, binZero]).measuredPhaseSkewSec = none ∧
    (RefClkSync.DFT 10000 2 [⟨10, 0, 10, 0⟩]
      ⟨0, some 0, 0⟩).measuredPhaseSkewSec = none := by
  have m10 : Bin.dsaMagnitude ⟨10, 0, 10, 0⟩ = 10 := dsaMagnitude_axis _ _ (by norm_num)
  have m10m : Bin.mioMagnitude ⟨10, 0, 10, 0⟩ = 10 := mioMagnitude_axis _ _ (by norm_num)
  have hsel : ChnlExpSync.selectDominantBin [⟨10, 0, 10, 0⟩, binZero] = ⟨0, 10⟩ := by
    show ChnlExpSync.selGo 0 ⟨0, 0⟩ _ = _
    rw [ChnlExpSync.selGo, ChnlExpSync.selStep,
      if_pos (by rw [m10, m10m]; norm_num), m10,
      truncD_nonneg_eq_floor (by norm_num)]
    norm_num
    rw [ChnlExpSync.selGo, ChnlExpSync.selStep,
      if_neg (by rw [dsaMagnitude_binZero]; norm_num)]
    rfl
  refine ⟨?_, ?_, ?_⟩
  · rw [ChnlExpSync.DFT]
    simp [hsel]
  · rw [ChnlExpSync.DFT]
    simp [hsel, ChnlExpSync.phaseSkewSecOf, divD]
  · show (RefClkSync.refGo 10000 2 0 _ _).measuredPhaseSkewSec = none
    rw [RefClkSync.refGo, RefClkSync.refGo, RefClkSync.refStep,
      if_pos ⟨by rw [m10]; norm_num, by rw [m10m]; norm_num⟩]
    rw [RefClkSync.binMeas]
    simp [RefClkSync.phaseSkewSecOf, divD]

/-- C4 (counterexample): at the wrap-crossing raw difference
`d = 150 - (-150) = 300` and frequency 1, the single-task variant's
`phaseSkewSec` is `300/360 = 5/6`, computed from the PRE-normalization
difference, not the post-normalization value `-60/360 = -1/6` the spec
attributes to it; moreover the two variants' values coincide, so their
outputs do not differ at the wrap boundary. -/
theorem c4_counterexample_single_task_uses_pre_normalization :
    ChnlExpSync.phaseSkewSecOf 150 (-150) 1 = some (5 / 6) ∧
    specPostNormPhaseSkewSec 150 (-150) 1 = some (-(1 / 6)) ∧
    ChnlExpSync.phaseSkewSecOf 150 (-150) 1 = RefClkSync.phaseSkewSecOf 150 (-150) 1 := by
  refine ⟨?_, ?_, rfl⟩
  · rw [ChnlExpSync.phaseSkewSecOf, divD, if_neg (by norm_num)]
    norm_num
  · rw [specPostNormPhaseSkewSec, divD, if_neg (by norm_num)]
    rw [ChnlExpSync.NormalizePhaseAngleDifference]
    norm_num

/-- C4 (amended): both variants compute `phaseSkewSec` from the
pre-normalization difference `d = dsaPhase - mioPhase`: the two formulas
(line 373 of ChnlExpSync.c and line 333 of RefClkSync.c) agree at every
input, so the two variants' `phaseSkewSec` outputs never differ, wrap
boundary or not. -/
theorem c4_amended_both_variants_pre_normalization :
    ∀ dsaPhase mioPhase f : ℝ,
      ChnlExpSync.phaseSkewSecOf dsaPhase mioPhase f =
        RefClkSync.phaseSkewSecOf dsaPhase mioPhase f :=
  fun _ _ _ => rfl

/-- C5 (counterexample): the raw difference `-90` lies in `(-360, 360)`,
is left unchanged by the wrap rule (`-90 < -90` is false), and `-90` is
NOT in the claimed half-open interval `(-90, 270]`. -/
theorem c5_counterexample_boundary_minus_ninety :
    ChnlExpSync.NormalizePhaseAngleDifference (-90) = -90 ∧
    ¬ (-90 < ChnlExpSync.NormalizePhaseAngleDifference (-90)) := by
  have h : ChnlExpSync.NormalizePhaseAngleDifference (-90) = -90 := by
    rw [ChnlExpSync.NormalizePhaseAngleDifference]
    norm_num
  exact ⟨h, by rw [h]; norm_num⟩

/-- C5 (amended): both files' `NormalizePhaseAngleDifference` agree and
apply exactly the two-threshold rule, with `normalize 300 = -60`,
`normalize (-200) = 160`, `normalize 270 = 270`, `normalize 271 = -89`;
and for every `d` in `(-360, 360)` the result lies in the CLOSED-below
interval `[-90, 270]` (the value `-90` is attained, at `d = -90`). -/
theorem c5_amended_two_threshold_rule :
    (∀ d : ℝ, ChnlExpSync.NormalizePhaseAngleDifference d =
      RefClkSync.NormalizePhaseAngleDifference d) ∧
    ChnlExpSync.NormalizePhaseAngleDifference 300 = -60 ∧
    ChnlExpSync.NormalizePhaseAngleDifference (-200) = 160 ∧
    ChnlExpSync.NormalizePhaseAngleDifference 270 = 270 ∧
    ChnlExpSync.NormalizePhaseAngleDifference 271 = -89 ∧
    ∀ d : ℝ, -360 < d → d < 360 →
      -90 ≤ ChnlExpSync.NormalizePhaseAngleDifference d ∧
        ChnlExpSync.NormalizePhaseAngleDifference d ≤ 270 := by
  refine ⟨fun d => rfl, ?_, ?_, ?_, ?_, ?_⟩
  · rw [ChnlExpSync.NormalizePhaseAngleDifference]; norm_num
  · rw [ChnlExpSync.NormalizePhaseAngleDifference]; norm_num
  · rw [ChnlExpSync.NormalizePhaseAngleDifference]; norm_num
  · rw [ChnlExpSync.NormalizePhaseAngleDifference]; norm_num
  · intro d h1 h2
    rw [ChnlExpSync.NormalizePhaseAngleDifference]
    split_ifs <;> constructor <;> linarith

/-- C5 (witness): the amended interval bound applied at `d = 90`. -/
theorem c5_witness :
    ((-360 : ℝ) < 90 ∧ (90 : ℝ) < 360) ∧
    (-90 ≤ ChnlExpSync.NormalizePhaseAngleDifference 90 ∧
      ChnlExpSync.NormalizePhaseAngleDifference 90 ≤ 270) :=
  ⟨⟨by norm_num, by norm_num⟩,
    c5_amended_two_threshold_rule.2.2.2.2.2 90 (by norm_num) (by norm_num)⟩

/-- C6: for a positive chunk length the one-sided spectrum has length
exactly `floor(N/2)+1` (C `int` division on nonnegative operands is floor
division), the zipped two-channel bin list consumed by the `DFT` loop has
the same length, and the report row of bin `i` is assigned the frequency
`i * binPrecision = i * sampleRate / N`. -/
theorem c6_spectrum_length_and_bin_frequency (dsa mio : List ℝ) (sampleRate : ℝ)
    (hlen : mio.length = dsa.length) (hx : 0 < dsa.length) :
    (oneSidedDFT dsa).length = dsa.length / 2 + 1 ∧
    (spectrumBins dsa mio).length = dsa.length / 2 + 1 ∧
    ∀ i, i < dsa.length / 2 + 1 →
      ((ChnlExpSync.report sampleRate dsa.length
        (spectrumBins dsa mio)).getD i reportZero).freq =
        (i : ℝ) * sampleRate / dsa.length := by
  have h1 : (oneSidedDFT dsa).length = dsa.length / 2 + 1 := by
    simp [oneSidedDFT, nc]
  have h2 : (spectrumBins dsa mio).length = dsa.length / 2 + 1 := by
    simp [spectrumBins, oneSidedDFT, nc, hlen]
  refine ⟨h1, h2, ?_⟩
  intro i hi
  rw [ChnlExpSync.report, getD_range_map _ _ _ (by rw [h2]; exact hi)]
  rw [ChnlExpSync.reportLine]
  exact (mul_div_assoc _ _ _).symm

/-- C6 (witness): a chunk of length 3 yields a spectrum of
`3 / 2 + 1 = 2` bins. -/
theorem c6_witness :
    0 < [(1 : ℝ), 2, 3].length ∧ (oneSidedDFT [(1 : ℝ), 2, 3]).length = 2 := by
  refine ⟨by norm_num, ?_⟩
  have h := (c6_spectrum_length_and_bin_frequency [(1 : ℝ), 2, 3] [(4 : ℝ), 5, 6] 10
    rfl (by norm_num)).1
  simpa using h

/-- C7: for an interleaved scan-major buffer of length `2*N`, the
demultiplexing loop of `EveryNCallback` yields two length-`N` sequences,
channel A element `i` is buffer element `2i` and channel B element `i` is
buffer element `2i+1`, and re-interleaving the two outputs reproduces the
buffer exactly. -/
theorem c7_demux_elementwise_and_round_trip (total : List ℝ) (n : ℕ)
    (h : total.length = 2 * n) :
    ((ChnlExpSync.splitInterleaved total n).1.length = n ∧
      (ChnlExpSync.splitInterleaved total n).2.length = n) ∧
    (∀ i, i < n →
      (ChnlExpSync.splitInterleaved total n).1.getD i 0 = total.getD (2 * i) 0 ∧
      (ChnlExpSync.splitInterleaved total n).2.getD i 0 = total.getD (2 * i + 1) 0) ∧
    interleave (ChnlExpSync.splitInterleaved total n).1
      (ChnlExpSync.splitInterleaved total n).2 = total := by
  refine ⟨⟨by simp [ChnlExpSync.splitInterleaved],
    by simp [ChnlExpSync.splitInterleaved]⟩, ?_, interleave_split n total h⟩
  intro i hi
  exact ⟨getD_range_map _ _ _ hi _, getD_range_map _ _ _ hi _⟩

/-- C7 (witness): the demultiplexer round-trip at the concrete buffer
`[1, 2, 3, 4]` with `N = 2`. -/
theorem c7_witness :
    ([(1 : ℝ), 2, 3, 4].length = 2 * 2) ∧
    interleave (ChnlExpSync.splitInterleaved [(1 : ℝ), 2, 3, 4] 2).1
      (ChnlExpSync.splitInterleaved [(1 : ℝ), 2, 3, 4] 2).2 = [(1 : ℝ), 2, 3, 4] :=
  ⟨by norm_num, (c7_demux_elementwise_and_round_trip [(1 : ℝ), 2, 3, 4] 2 (by norm_num)).2.2⟩

/-- C8: in both variants, every row of the per-bin report — including the
DC row `i = 0` and the last (Nyquist, for even N) row — has
`amplitude = sqrt(real² + imag²) * 2 / N` on both channels: the factor-of-2
scaling is applied uniformly with no exception for DC or Nyquist. -/
theorem c8_uniform_amplitude_scaling (sampleRate : ℝ) (n : ℕ) (bins : List Bin)
    (i : ℕ) (hi : i < bins.length) :
    (((ChnlExpSync.report sampleRate n bins).getD i reportZero).dsaAmplitude =
        Real.sqrt ((bins.getD i binZero).dsaRe * (bins.getD i binZero).dsaRe +
          (bins.getD i binZero).dsaIm * (bins.getD i binZero).dsaIm) * 2 / n ∧
      ((ChnlExpSync.report sampleRate n bins).getD i reportZero).mioAmplitude =
        Real.sqrt ((bins.getD i binZero).mioRe * (bins.getD i binZero).mioRe +
          (bins.getD i binZero).mioIm * (bins.getD i binZero).mioIm) * 2 / n) ∧
    (((RefClkSync.report sampleRate n bins).getD i reportZero).dsaAmplitude =
        Real.sqrt ((bins.getD i binZero).dsaRe * (bins.getD i binZero).dsaRe +
          (bins.getD i binZero).dsaIm * (bins.getD i binZero).dsaIm) * 2 / n ∧
      ((RefClkSync.report sampleRate n bins).getD i reportZero).mioAmplitude =
        Real.sqrt ((bins.getD i binZero).mioRe * (bins.getD i binZero).mioRe +
          (bins.getD i binZero).mioIm * (bins.getD i binZero).mioIm) * 2 / n) := by
  rw [ChnlExpSync.report, RefClkSync.report,
    getD_range_map _ _ _ hi, getD_range_map _ _ _ hi]
  exact ⟨⟨rfl, rfl⟩, rfl, rfl⟩

/-- C8 (witness): the DC row of a one-bin report with components 3 and 4
has amplitude `5 * 2 / 4`. -/
theorem c8_witness :
    0 < [(⟨3, 4, 3, 4⟩ : Bin)].length ∧
    ((ChnlExpSync.report 10 4 [(⟨3, 4, 3, 4⟩ : Bin)]).getD 0 reportZero).dsaAmplitude
      = 5 * 2 / 4 := by
  refine ⟨by norm_num, ?_⟩
  have h := ((c8_uniform_amplitude_scaling 10 4 [(⟨3, 4, 3, 4⟩ : Bin)] 0 (by norm_num)).1).1
  rw [h]
  simp only [List.getD_cons_zero]
  rw [show ((⟨3, 4, 3, 4⟩ : Bin).dsaRe * (⟨3, 4, 3, 4⟩ : Bin).dsaRe +
    (⟨3, 4, 3, 4⟩ : Bin).dsaIm * (⟨3, 4, 3, 4⟩ : Bin).dsaIm) = (5 : ℝ) * 5 by norm_num,
    Real.sqrt_mul_self (by norm_num : (0 : ℝ) ≤ 5)]
  norm_num

/-- C10: in the multi-task variant's `DFT`, the three output locations are
written only inside the per-bin gate `dsaMagnitude >= 5 && mioMagnitude >= 5`:
if no bin qualifies they keep exactly the caller-provided initial contents
(the zero-initialized locals of `EveryNCallback`), and when bins qualify the
final contents are the measurement triple of the highest-index qualifying
bin. -/
theorem c10_refclk_gate_frame_and_last_qualifier
    (sampleRate : ℝ) (n : ℕ) (bins : List Bin) (m0 : Meas) :
    ((∀ b ∈ bins, ¬ RefClkSync.Qualifies b) →
      RefClkSync.DFT sampleRate n bins m0 = m0) ∧
    (∀ j, ∀ hj : j < bins.length, RefClkSync.Qualifies (bins.get ⟨j, hj⟩) →
      (∀ k, ∀ hk : k < bins.length, j < k → ¬ RefClkSync.Qualifies (bins.get ⟨k, hk⟩)) →
      RefClkSync.DFT sampleRate n bins m0 =
        RefClkSync.binMeas sampleRate n j (bins.get ⟨j, hj⟩)) := by
  constructor
  · intro h
    exact RefClkSync.refGo_frame sampleRate n bins 0 m0 h
  · intro j hj hq hlast
    have hdrop : ∀ b ∈ bins.drop (j + 1), ¬ RefClkSync.Qualifies b := by
      intro b hb
      obtain ⟨i, hi, hbi⟩ := List.mem_iff_getElem.mp hb
      rw [List.getElem_drop] at hbi
      have hik : j + 1 + i < bins.length := by
        rw [List.length_drop] at hi
        omega
      have := hlast (j + 1 + i) hik (by omega)
      rw [List.get_eq_getElem, hbi] at this
      exact this
    have hsplit : bins = bins.take j ++ bins.get ⟨j, hj⟩ :: bins.drop (j + 1) := by
      conv_lhs => rw [← List.take_append_drop j bins]
      rw [List.drop_eq_getElem_cons hj, List.get_eq_getElem]
    rw [RefClkSync.DFT]
    conv_lhs => rw [hsplit]
    rw [RefClkSync.refGo_append, RefClkSync.refGo, RefClkSync.refStep,
      if_pos (show 5 ≤ (bins.get ⟨j, hj⟩).dsaMagnitude ∧
        5 ≤ (bins.get ⟨j, hj⟩).mioMagnitude from hq)]
    rw [RefClkSync.refGo_frame _ _ _ _ _ hdrop]
    have hlen : (bins.take j).length = j := by
      rw [List.length_take]
      omega
    rw [hlen]
    norm_num

/-- C10 (witness): on a single bin of magnitude 1 on both channels nothing
qualifies and the zero-initialized outputs are returned unchanged. -/
theorem c10_witness :
    (∀ b ∈ [(⟨1, 0, 1, 0⟩ : Bin)], ¬ RefClkSync.Qualifies b) ∧
    RefClkSync.DFT 10000 2 [(⟨1, 0, 1, 0⟩ : Bin)] ⟨0, some 0, 0⟩ = ⟨0, some 0, 0⟩ := by
  have hq : ∀ b ∈ [(⟨1, 0, 1, 0⟩ : Bin)], ¬ RefClkSync.Qualifies b := by
    intro b hb
    simp only [List.mem_singleton] at hb
    subst hb
    intro hc
    have h1 := hc.1
    rw [dsaMagnitude_axis _ _ (by norm_num : (0 : ℝ) ≤ 1)] at h1
    norm_num at h1
  exact ⟨hq, (c10_refclk_gate_frame_and_last_qualifier 10000 2 _ _).1 hq⟩

end NiDsaSync
